import Mathlib

/-!
Shallow embedding of the mopm meta package manager (src/mopm.go) and proofs
about its validator, environment resolver, privilege policy and
install/verify orchestration.

External effects are modelled explicitly:
* the shell executor (`execBash` / `execBashUnsudo`) becomes an abstract
  state-passing oracle `Executor`, and every invocation is recorded in a
  trace of `(RunMode, command)` pairs;
* the filesystem that holds package definition files becomes an oracle
  `String -> ReadOutcome` giving, per path, the outcome of
  stat / read / yaml-parse that `readPackageFile` performs;
* process-global data (`os.Getuid() == 0`, `$SUDO_USER`) becomes a
  `Machine` record;
* `checkIfError` (print + `os.Exit(1)`) becomes the `ProcResult.exit1`
  constructor.

String operations from the Go standard library (`strings.HasPrefix`,
`strings.TrimSuffix`, `strings.ToLower`, `strings.TrimSpace`, ...) are
re-implemented on `List Char`; the Unicode-aware Go versions are restricted
to their ASCII behaviour, which is all the claims exercise.
-/

namespace Mopm

/-! ### Go strings helpers (ASCII fragment) -/

/-- strings.HasPrefix on character lists: does the second list begin the first. -/
def listBeginsWith : List Char → List Char → Bool
  | _, [] => true
  | [], _ :: _ => false
  | a :: as, b :: bs => a == b && listBeginsWith as bs

/-- strings.HasPrefix. -/
def strStartsWith (s pat : String) : Bool :=
  listBeginsWith s.data pat.data

/-- strings.HasSuffix. -/
def strEndsWith (s pat : String) : Bool :=
  listBeginsWith s.data.reverse pat.data.reverse

/-- strings.TrimPrefix: drop `pat` from the front of `s` when present, else `s`. -/
def strTrimStart (s pat : String) : String :=
  if strStartsWith s pat then ⟨s.data.drop pat.data.length⟩ else s

/-- strings.TrimSuffix: drop `pat` from the end of `s` when present, else `s`. -/
def strTrimSuffix (s pat : String) : String :=
  if strEndsWith s pat then ⟨s.data.take (s.data.length - pat.data.length)⟩ else s

/-- strings.Trim with cut set " ": drop the character `c` from the front of a list. -/
def dropLeadChar (c : Char) : List Char → List Char
  | [] => []
  | a :: as => if a == c then dropLeadChar c as else a :: as

/-- strings.Trim(s, " "): spaces removed from both ends. -/
def trimSpacesBothEnds (s : String) : String :=
  ⟨(dropLeadChar ' ' (dropLeadChar ' ' s.data).reverse).reverse⟩

/-- ASCII white space, the fragment of unicode.IsSpace the claims exercise. -/
def isSpaceChar (c : Char) : Bool :=
  c == ' ' || c == '\t' || c == '\n' || c == '\x0b' || c == '\x0c' || c == '\r'

/-- Drop leading ASCII white space from a list. -/
def dropLeadSpaces : List Char → List Char
  | [] => []
  | a :: as => if isSpaceChar a then dropLeadSpaces as else a :: as

/-- strings.TrimSpace (ASCII fragment). -/
def trimSpace (s : String) : String :=
  ⟨(dropLeadSpaces (dropLeadSpaces s.data).reverse).reverse⟩

/-- strings.ToLower (ASCII fragment). -/
def strToLower (s : String) : String :=
  ⟨s.data.map Char.toLower⟩

/-! ### Data model (src/mopm.go lines 20-39) -/

/-- One (architecture, platform) target of a package definition. -/
structure Environment where
  architecture : String
  platform : String
  dependencies : List String
  verification : String
  privilege : Bool
  script : String
deriving DecidableEq

/-- A package definition as parsed from a yaml file. -/
structure Package where
  name : String
  url : String
  description : String
  environments : List Environment
deriving DecidableEq

/-- A package definition together with the path it was read from. -/
structure PackageFile where
  package : Package
  path : String
deriving DecidableEq

/-! ### Definition validator (`lintPackage`, src/mopm.go lines 340-375) -/

/-- One character of the `^[0-9a-z\-]+$` package-name character class. -/
def pkgNameCharOk (c : Char) : Bool :=
  (decide ('0' ≤ c) && decide (c ≤ '9')) || (decide ('a' ≤ c) && decide (c ≤ 'z')) || c == '-'

/-- `pkgNameRegex.MatchString`: the whole string is a nonempty run of `[0-9a-z-]`. -/
def pkgNameOk (s : String) : Bool :=
  !s.data.isEmpty && s.data.all pkgNameCharOk

/-- `urlRegex.MatchString` for `^https?://`. -/
def urlOk (s : String) : Bool :=
  strStartsWith s "http://" || strStartsWith s "https://"

def nameErrMsg : String := "Package name must consist of a-z, 0-9 and -(hyphen) charactors"
def urlErrMsg : String := "Package url must start with http(s):// ... "
def descriptionErrMsg : String := "Package description must not be empty"
def environmentsErrMsg : String := "Package must not be empty"
def architectureErrMsg : String := "Package architecture must be 'amd64'"
def platformErrMsg : String := "Package architecture must be 'darwin' or 'linux/ubuntu'"
def dependenciesErrMsg : String := "Package dependencies must consist of a-z, 0-9 and -(hyphen) charactors"
def verificationErrMsg : String := "Package verification must not be empty"
def scriptErrMsg : String := "Package script must not be empty"

/-- The per-environment checks of `lintPackage`, in source order; `none` = accepted.
The Go dependency loop returns the same message at the first offending
dependency, so it is rendered with `List.all`. -/
def lintEnvironment (env : Environment) : Option String :=
  if env.architecture != "amd64" then some architectureErrMsg
  else if env.platform != "darwin" && env.platform != "linux/ubuntu" then some platformErrMsg
  else if !env.dependencies.all pkgNameOk then some dependenciesErrMsg
  else if env.verification == "" then some verificationErrMsg
  else if env.script == "" then some scriptErrMsg
  else none

/-- The `for _, env := range pkg.Environments` loop of `lintPackage`:
first failing environment reports its message. -/
def lintEnvironments : List Environment → Option String
  | [] => none
  | e :: es =>
    match lintEnvironment e with
    | some msg => some msg
    | none => lintEnvironments es

/-- `lintPackage`: fixed-order, short-circuiting validation; `none` = lint passed. -/
def lintPackage (pkg : Package) : Option String :=
  if !pkgNameOk pkg.name then some nameErrMsg
  else if !urlOk pkg.url then some urlErrMsg
  else if pkg.description == "" then some descriptionErrMsg
  else if pkg.environments.isEmpty then some environmentsErrMsg
  else lintEnvironments pkg.environments

/-- The rules an accepted environment satisfies, stated as plain propositions. -/
def EnvWellFormed (e : Environment) : Prop :=
  e.architecture = "amd64" ∧ (e.platform = "darwin" ∨ e.platform = "linux/ubuntu") ∧
  (∀ d ∈ e.dependencies, pkgNameOk d = true) ∧ e.verification ≠ "" ∧ e.script ≠ ""

/-- The rules an accepted package satisfies, stated as plain propositions. -/
def PackageWellFormed (pkg : Package) : Prop :=
  pkgNameOk pkg.name = true ∧ urlOk pkg.url = true ∧ pkg.description ≠ "" ∧
  pkg.environments ≠ [] ∧ ∀ e ∈ pkg.environments, EnvWellFormed e

/-! ### Machine context and privilege policy (src/mopm.go lines 227-241, 399-401) -/

/-- `machinePrivilege`: `os.Getuid() == 0`. -/
def machinePrivilege (uid : Int) : Bool :=
  uid == 0

/-- The process-global facts `installExec` and `homeDir` consult:
`machinePrivilege()` and `os.Getenv("SUDO_USER")` (empty string = unset). -/
structure Machine where
  privileged : Bool
  sudoUser : String
deriving DecidableEq

/-- Build a `Machine` from the raw system values. -/
def machineOfSystem (uid : Int) (sudoUser : String) : Machine :=
  { privileged := machinePrivilege uid, sudoUser := sudoUser }

/-- Outcome of the privilege decision inside `installExec`. -/
inductive ExecDecision
  | RunDirect
  | RunAs (identity : String)
  | Deny
deriving DecidableEq

/-- The branch structure of `installExec`:
`privilege == machinePrivilege()` runs the script directly (`execBash`);
otherwise, when the package is unprivileged, the process is root and
`$SUDO_USER` is set, the script runs as that user (`execBashUnsudo`);
otherwise the install is refused. -/
def installExecDecision (privilege : Bool) (m : Machine) : ExecDecision :=
  if privilege == m.privileged then ExecDecision.RunDirect
  else if !privilege && (m.privileged && m.sudoUser != "") then ExecDecision.RunAs m.sudoUser
  else ExecDecision.Deny

/-! ### External executor (src/mopm.go lines 403-413) -/

/-- The identity a shell command is run under: `execBash` pipes the script to
`bash` as the current process identity; `execBashUnsudo` runs
`sudo --user=$SUDO_USER bash`. -/
inductive RunMode
  | direct
  | unsudo (u : String)
deriving DecidableEq

/-- Every executor invocation, in order: which identity ran which command. -/
abbrev Trace := List (RunMode × String)

/-- Abstract external world: running a command in a state yields success or
failure and a next state. `true` models `cmd.Run() == nil`. -/
structure Executor (σ : Type) where
  run : σ → RunMode → String → Bool × σ

/-! ### Install/verify orchestration (src/mopm.go lines 187-241) -/

/-- `verifyExec`: pipes the verification command to `execBash` and reports
whether it succeeded (`true` = the Go function returned `nil`).  The result
also carries the next world state and the executor invocations made. -/
def verifyExec {σ : Type} (ex : Executor σ) (s : σ) (env : Environment) : Bool × σ × Trace :=
  let r := ex.run s RunMode.direct env.verification
  (r.1, r.2, [(RunMode.direct, env.verification)])

/-- Result of `installExec`: `ok` = returned `nil`; `scriptFailed` = the bash
invocation returned an error; `denied` = the trailing
"Check privilege to install this package" error, with no executor call. -/
inductive InstallExecResult
  | ok
  | scriptFailed
  | denied
deriving DecidableEq

/-- `installExec` with the executor effect made explicit, dispatching on the
same branch structure as `installExecDecision`. -/
def installExecRun {σ : Type} (ex : Executor σ) (s : σ) (m : Machine) (privilege : Bool)
    (script : String) : InstallExecResult × σ × Trace :=
  match installExecDecision privilege m with
  | ExecDecision.RunDirect =>
    let r := ex.run s RunMode.direct script
    ((if r.1 then InstallExecResult.ok else InstallExecResult.scriptFailed), r.2,
      [(RunMode.direct, script)])
  | ExecDecision.RunAs u =>
    let r := ex.run s (RunMode.unsudo u) script
    ((if r.1 then InstallExecResult.ok else InstallExecResult.scriptFailed), r.2,
      [(RunMode.unsudo u, script)])
  | ExecDecision.Deny => (InstallExecResult.denied, s, [])

/-- The distinct outcomes of `install` (after environment resolution), one per
return point of the Go function:
`alreadyInstalled` = "The package is already installed" then `nil`;
`installed` = "Installed successfully.";
`privilegeDenied` = the "Check privilege ..." error from `installExec`;
`scriptFailed` = the bash error from `installExec`;
`failedVerification` = "Finished installing script but failed to verify". -/
inductive InstallOutcome
  | alreadyInstalled
  | installed
  | privilegeDenied
  | scriptFailed
  | failedVerification
deriving DecidableEq

/-- The body of `install` after `findPackageEnvironment` succeeded:
verify; if verified stop; otherwise run `installExec`; on its error return it;
otherwise verify again and report `installed` or `failedVerification`. -/
def install {σ : Type} (ex : Executor σ) (s : σ) (m : Machine) (env : Environment) :
    InstallOutcome × σ × Trace :=
  let v1 := ex.run s RunMode.direct env.verification
  if v1.1 then (InstallOutcome.alreadyInstalled, v1.2, [(RunMode.direct, env.verification)])
  else
    match installExecRun ex v1.2 m env.privilege env.script with
    | (InstallExecResult.denied, s2, t2) =>
      (InstallOutcome.privilegeDenied, s2, (RunMode.direct, env.verification) :: t2)
    | (InstallExecResult.scriptFailed, s2, t2) =>
      (InstallOutcome.scriptFailed, s2, (RunMode.direct, env.verification) :: t2)
    | (InstallExecResult.ok, s2, t2) =>
      let v2 := ex.run s2 RunMode.direct env.verification
      ((if v2.1 then InstallOutcome.installed else InstallOutcome.failedVerification), v2.2,
        ((RunMode.direct, env.verification) :: t2) ++ [(RunMode.direct, env.verification)])

/-! ### Machine platform derivation (src/mopm.go lines 377-397) -/

/-- A value computed from process-global state, or a crash: `machinePlatform`
panics when `/etc/os-release` is unreadable (and Go itself panics on the
out-of-range slice a six-character `NAME="` line would cause). -/
inductive PlatformResult
  | ok (value : String)
  | fatal (msg : String)
deriving DecidableEq

/-- The Go line splitter `regexp.MustCompile(`\r\n|\n\r|\n|\r`).Split`:
alternatives tried left to right at each position. -/
def splitLinesAux : List Char → List Char → List String
  | [], acc => [⟨acc.reverse⟩]
  | '\r' :: '\n' :: rest, acc => (⟨acc.reverse⟩ : String) :: splitLinesAux rest []
  | '\n' :: '\r' :: rest, acc => (⟨acc.reverse⟩ : String) :: splitLinesAux rest []
  | '\n' :: rest, acc => (⟨acc.reverse⟩ : String) :: splitLinesAux rest []
  | '\r' :: rest, acc => (⟨acc.reverse⟩ : String) :: splitLinesAux rest []
  | c :: rest, acc => splitLinesAux rest (c :: acc)

/-- Split file content into lines the way `machinePlatform` does. -/
def splitLines (s : String) : List String :=
  splitLinesAux s.data []

/-- The line filter of `machinePlatform`:
`strings.HasPrefix(line, "NAME=\"") && strings.HasSuffix(line, "\"")`. -/
def nameLineMatches (line : String) : Bool :=
  strStartsWith line "NAME=\"" && strEndsWith line "\""

/-- First line of the os-release content matching the `NAME="..."` shape. -/
def findNameLine : List String → Option String
  | [] => none
  | l :: ls => if nameLineMatches l then some l else findNameLine ls

/-- The slice `line[6 : len(line)-1]` taken on a matching line. -/
def nameLineBody (line : String) : String :=
  ⟨(line.data.drop 6).dropLast⟩

/-- `machinePlatform`, parameterised by `runtime.GOOS` and the content of
`/etc/os-release` (`none` = `ioutil.ReadFile` errored). -/
def machinePlatform (goos : String) (osRelease : Option String) : PlatformResult :=
  if goos != "linux" then PlatformResult.ok goos
  else
    match osRelease with
    | none => PlatformResult.fatal "failed to read /etc/os-release inspite that your machine is linux"
    | some content =>
      match findNameLine (splitLines content) with
      | some line =>
        if line.data.length < 7 then
          PlatformResult.fatal "runtime error: slice bounds out of range"
        else
          PlatformResult.ok ("linux/" ++ trimSpace (strToLower (nameLineBody line)))
      | none => PlatformResult.ok "linux"

/-- `machineEnvId`: `runtime.GOARCH + "@" + machinePlatform()`. -/
def machineEnvId (goarch goos : String) (osRelease : Option String) : PlatformResult :=
  match machinePlatform goos osRelease with
  | PlatformResult.ok p => PlatformResult.ok (goarch ++ "@" ++ p)
  | PlatformResult.fatal msg => PlatformResult.fatal msg

/-! ### Process termination, home directory, repository list
(src/mopm.go lines 243-285, 419-424) -/

/-- Result of a computation that may call `checkIfError` with a non-nil error:
`exit1 msg` models printing `msg` to stderr and `os.Exit(1)`. -/
inductive ProcResult (α : Type)
  | ok (a : α)
  | exit1 (msg : String)
deriving DecidableEq

/-- `checkIfError`: a non-nil error prints its message and exits with code 1. -/
def checkIfError {α : Type} : Except String α → ProcResult α
  | Except.ok a => ProcResult.ok a
  | Except.error e => ProcResult.exit1 e

def rootWithoutSudoErrMsg : String := "Please excute with sudo if you excute mopm by root"

/-- `homeDir`, parameterised by `user.Current()` and `user.Lookup` results.
When the process is root and `$SUDO_USER` is empty, `checkIfError` fires with
the fixed message before any lookup (the Go code after that call is
unreachable because `os.Exit(1)` does not return). -/
def homeDir (m : Machine) (currentUser : Except String String)
    (lookup : String → Except String String) : ProcResult String :=
  if !m.privileged then checkIfError currentUser
  else if m.sudoUser == "" then ProcResult.exit1 rootWithoutSudoErrMsg
  else checkIfError (lookup m.sudoUser)

def defaultPackageRepoUrl : String := "https://github.com/basd4g/mopm-defs.git"

/-- The repo-list parsing loop of `packageRepositories`: split on "\n", keep
lines that are nonempty and do not start with "#", trim spaces. -/
def parseRepoLines (content : String) : List String :=
  ((content.split (fun c => c == '\n')).filter
      (fun repo => repo != "" && !strStartsWith repo "#")).map trimSpacesBothEnds

/-- `packageRepositories`, with the repo-list file as an oracle
(`none` = the file does not exist, in which case the Go code creates it with
the default url and reads that back). -/
def packageRepositories (m : Machine) (currentUser : Except String String)
    (lookup : String → Except String String) (repoFile : String → Option String) :
    ProcResult (List String) :=
  match homeDir m currentUser lookup with
  | ProcResult.exit1 e => ProcResult.exit1 e
  | ProcResult.ok home =>
    let path := home ++ "/.mopm-repos"
    let content :=
      match repoFile path with
      | none => defaultPackageRepoUrl
      | some c => c
    let repos := parseRepoLines content
    if repos.isEmpty then
      ProcResult.exit1 ("package repository url is not found in the file: " ++ path)
    else ProcResult.ok repos

/-- `repoUrl2repoPath`:
`homeDir() + "/.mopm/" + TrimSuffix(TrimPrefix(TrimPrefix(url, "http://"), "https://"), ".git")`. -/
def repoUrl2repoPath (home url : String) : String :=
  home ++ "/.mopm/" ++ strTrimSuffix (strTrimStart (strTrimStart url "http://") "https://") ".git"

/-! ### Update (src/mopm.go lines 133-145) -/

/-- What one iteration of the `update` loop does to a repository. -/
inductive UpdateAction
  | clone (path url : String)
  | pull (path : String)
deriving DecidableEq

/-- The `update` loop over the repository list, with `os.Stat` as an oracle.
The Go body computes `path := repoUrl2repoPath(packageRepositories()[0])`,
i.e. from the FIRST url of the list, not from the loop variable `url`;
indexing `[0]` is modelled by `headD ""` (the list is nonempty whenever
`packageRepositories` returns). -/
def update (home : String) (dirExists : String → Bool) (repos : List String) :
    List UpdateAction :=
  repos.map (fun url =>
    let path := repoUrl2repoPath home (repos.headD "")
    if dirExists path then UpdateAction.pull path else UpdateAction.clone path url)

/-! ### Reading and aggregating package files (src/mopm.go lines 287-338) -/

/-- Per-path outcome of the effectful first half of `readPackageFile`:
`os.Stat` failed, `ioutil.ReadFile` failed, `yaml.Unmarshal` failed, or a
`Package` value was produced. -/
inductive ReadOutcome
  | statError
  | readError (msg : String)
  | yamlError
  | parsed (pkg : Package)
deriving DecidableEq

/-- `readPackageFile`, with the filesystem/parser as an oracle over paths. -/
def readPackageFile (world : String → ReadOutcome) (path : String) :
    Except String PackageFile :=
  match world path with
  | ReadOutcome.statError => Except.error ("The package do not exist: " ++ path)
  | ReadOutcome.readError msg => Except.error msg
  | ReadOutcome.yamlError => Except.error ("Failed to parse yaml file: " ++ path)
  | ReadOutcome.parsed pkg =>
    match lintPackage pkg with
    | some msg => Except.error msg
    | none => Except.ok { package := pkg, path := path }

/-- The definition-file path tried for a repository url:
`repoUrl2repoPath(url) + "/definitions/" + packageName + ".yaml"`. -/
def packageDefinitionPath (home url packageName : String) : String :=
  repoUrl2repoPath home url ++ "/definitions/" ++ packageName ++ ".yaml"

/-- The loop of `findAllPackageFile`: keep exactly the records whose
`readPackageFile` returned no error, preserving repository order. -/
def findAllPackageFile (world : String → ReadOutcome) (home packageName : String) :
    List String → List PackageFile
  | [] => []
  | url :: rest =>
    match readPackageFile world (packageDefinitionPath home url packageName) with
    | Except.ok pf => pf :: findAllPackageFile world home packageName rest
    | Except.error _ => findAllPackageFile world home packageName rest

/-- `findAllPackageFile` composed with `packageRepositories` (the Go function
calls it, and `repoUrl2repoPath` re-runs `homeDir`); `exit1` aborts before any
package file is consulted. -/
def findAllPackageFileM (m : Machine) (currentUser : Except String String)
    (lookup : String → Except String String) (repoFile : String → Option String)
    (world : String → ReadOutcome) (packageName : String) : ProcResult (List PackageFile) :=
  match homeDir m currentUser lookup with
  | ProcResult.exit1 e => ProcResult.exit1 e
  | ProcResult.ok home =>
    match packageRepositories m currentUser lookup repoFile with
    | ProcResult.exit1 e => ProcResult.exit1 e
    | ProcResult.ok repos => ProcResult.ok (findAllPackageFile world home packageName repos)

/-! ### Environment resolution (src/mopm.go lines 299-312) -/

/-- The identifier an environment is matched under: `architecture@platform`. -/
def envId (e : Environment) : String :=
  e.architecture ++ "@" ++ e.platform

/-- The inner loop of `findPackageEnvironment`: first environment of one
package whose `architecture@platform` equals the machine id. -/
def findEnvironmentIn (machineId : String) : List Environment → Option Environment
  | [] => none
  | e :: es => if envId e == machineId then some e else findEnvironmentIn machineId es

/-- `findPackageEnvironment` over an already-aggregated list of package files:
first match in source order, then in environment declaration order; `none`
models the "Matched environment does not exist" error. -/
def findPackageEnvironment (machineId : String) : List PackageFile → Option Environment
  | [] => none
  | pf :: rest =>
    match findEnvironmentIn machineId pf.package.environments with
    | some e => some e
    | none => findPackageEnvironment machineId rest

/-! ### Concrete sample data used by witnesses and counterexamples -/

/-- A well-formed unprivileged environment used as concrete input. -/
def envA : Environment :=
  { architecture := "amd64", platform := "darwin", dependencies := [],
    verification := "which vim", privilege := false, script := "brew install vim" }

/-- A stateless executor answering every command with `b`. -/
def exAlways (b : Bool) : Executor Unit :=
  ⟨fun s _ _ => (b, s)⟩

/-- A one-bit world: commands succeed once `envA.script` has run; before that,
only the script itself succeeds. -/
def exFlip : Executor Bool :=
  ⟨fun st _ cmd => if cmd == "brew install vim" then (true, true) else (st, st)⟩

/-! ## Theorems -/

/-- C1: the privilege decision of `installExec`, as a function of
(requiresPrivilege, isCurrentlyPrivileged, de-escalation identity), matches
the table of §4.3 row by row: (true,true) runs directly; (true,false) is
denied; (false,false) runs directly; (false,true) runs as the `$SUDO_USER`
identity when it is present and is denied when it is absent.  The first three
rows hold for every identity string, so the identity dimension only affects
the (false,true) row. -/
theorem privilege_table (su : String) :
    installExecDecision true { privileged := true, sudoUser := su } = ExecDecision.RunDirect ∧
    installExecDecision true { privileged := false, sudoUser := su } = ExecDecision.Deny ∧
    installExecDecision false { privileged := false, sudoUser := su } = ExecDecision.RunDirect ∧
    (su ≠ "" →
      installExecDecision false { privileged := true, sudoUser := su } = ExecDecision.RunAs su) ∧
    (su = "" →
      installExecDecision false { privileged := true, sudoUser := su } = ExecDecision.Deny) := by
  refine ⟨rfl, rfl, rfl, ?_, ?_⟩
  · intro h
    simp [installExecDecision, h]
  · intro h
    subst h
    rfl

/-- Witness for C1: the two conditional rows evaluated at concrete identities. -/
theorem privilege_table_witness :
    installExecDecision false { privileged := true, sudoUser := "alice" }
      = ExecDecision.RunAs "alice" ∧
    installExecDecision false { privileged := true, sudoUser := "" } = ExecDecision.Deny :=
  ⟨(privilege_table "alice").2.2.2.1 (by decide), (privilege_table "").2.2.2.2 rfl⟩

/-- C2 counterexample: the claim says `verify` runs the verification command
under the identity chosen by the privilege policy for the environment's
privilege flag.  For the unprivileged `envA` on a root process with
`$SUDO_USER = "alice"`, that policy outcome is `RunAs "alice"`, yet
`verifyExec` invokes the executor in `direct` mode (it never consults the
policy), so the claim is false at this input. -/
theorem verify_policy_cex :
    installExecDecision envA.privilege { privileged := true, sudoUser := "alice" }
      = ExecDecision.RunAs "alice" ∧
    (verifyExec (exAlways true) () envA).2.2 = [(RunMode.direct, envA.verification)] ∧
    RunMode.direct ≠ RunMode.unsudo "alice" := by
  refine ⟨by decide, rfl, by decide⟩

/-- C2 (amended): `verifyExec` always runs the environment's verification
command via the external executor directly under the current identity,
independent of the privilege flag and of the privilege policy, and reports
Verified exactly when the executor reports success. -/
theorem verify_runs_direct {σ : Type} (ex : Executor σ) (s : σ) (env : Environment) :
    (verifyExec ex s env).1 = (ex.run s RunMode.direct env.verification).1 ∧
    (verifyExec ex s env).2.2 = [(RunMode.direct, env.verification)] ∧
    ((verifyExec ex s env).1 = true ↔ (ex.run s RunMode.direct env.verification).1 = true) :=
  ⟨rfl, rfl, Iff.rfl⟩

/-- C4: `install` on an environment whose verification already succeeds
returns the success outcome immediately, and the only executor invocation in
the whole run is that verification — the install script is never run. -/
theorem install_idempotent_noop {σ : Type} (ex : Executor σ) (s : σ) (m : Machine)
    (env : Environment) (h : (ex.run s RunMode.direct env.verification).1 = true) :
    install ex s m env
      = (InstallOutcome.alreadyInstalled, (ex.run s RunMode.direct env.verification).2,
         [(RunMode.direct, env.verification)]) := by
  unfold install
  simp [h]

/-- Witness for C4 at a concrete world where every command succeeds. -/
theorem install_idempotent_noop_witness :
    install (exAlways true) () { privileged := false, sudoUser := "" } envA
      = (InstallOutcome.alreadyInstalled, (), [(RunMode.direct, envA.verification)]) :=
  install_idempotent_noop (exAlways true) () { privileged := false, sudoUser := "" } envA rfl

/-- C3 counterexample: the claim says that whenever the initial verification
fails and the privilege decision is not Deny, the script runs and then
verification runs a SECOND time regardless of the script's own exit status,
yielding `installed` or `failedVerification`.  At a world where every command
fails, the premises hold (initial verification fails; the decision for the
unprivileged `envA` on an unprivileged machine is RunDirect, not Deny), yet
`install` stops at the script error: the outcome is `scriptFailed`, not
`installed` or `failedVerification`, and the trace shows exactly one
verification invocation, not two. -/
theorem install_no_second_verify_cex :
    ((exAlways false).run () RunMode.direct envA.verification).1 = false ∧
    installExecDecision envA.privilege { privileged := false, sudoUser := "" }
      ≠ ExecDecision.Deny ∧
    install (exAlways false) () { privileged := false, sudoUser := "" } envA
      = (InstallOutcome.scriptFailed, (),
         [(RunMode.direct, envA.verification), (RunMode.direct, envA.script)]) ∧
    InstallOutcome.scriptFailed ≠ InstallOutcome.installed ∧
    InstallOutcome.scriptFailed ≠ InstallOutcome.failedVerification := by
  refine ⟨rfl, by decide, by decide, by decide, by decide⟩

/-- C3 (amended): after a failed initial verification, `install` runs
`installExec`; when the script executor reports success the verification runs
a second time and the outcome is `installed` exactly when it now succeeds and
`failedVerification` otherwise; when the script executor reports failure the
outcome is `scriptFailed` with no second verification; when it denies, the
outcome is `privilegeDenied`.  The three failure outcomes are pairwise
distinct, and `installExec` only denies when the privilege decision is Deny. -/
theorem install_after_failed_verify {σ : Type} (ex : Executor σ) (s : σ) (m : Machine)
    (env : Environment) (h1 : (ex.run s RunMode.direct env.verification).1 = false) :
    (∀ s2 t2,
      installExecRun ex (ex.run s RunMode.direct env.verification).2 m env.privilege env.script
          = (InstallExecResult.ok, s2, t2) →
      install ex s m env
        = ((if (ex.run s2 RunMode.direct env.verification).1 then InstallOutcome.installed
            else InstallOutcome.failedVerification),
           (ex.run s2 RunMode.direct env.verification).2,
           ((RunMode.direct, env.verification) :: t2) ++ [(RunMode.direct, env.verification)])) ∧
    (∀ s2 t2,
      installExecRun ex (ex.run s RunMode.direct env.verification).2 m env.privilege env.script
          = (InstallExecResult.scriptFailed, s2, t2) →
      install ex s m env
        = (InstallOutcome.scriptFailed, s2, (RunMode.direct, env.verification) :: t2)) ∧
    (∀ s2 t2,
      installExecRun ex (ex.run s RunMode.direct env.verification).2 m env.privilege env.script
          = (InstallExecResult.denied, s2, t2) →
      install ex s m env
        = (InstallOutcome.privilegeDenied, s2, (RunMode.direct, env.verification) :: t2)) ∧
    ((installExecRun ex (ex.run s RunMode.direct env.verification).2 m env.privilege
        env.script).1 = InstallExecResult.denied
      ↔ installExecDecision env.privilege m = ExecDecision.Deny) ∧
    (InstallOutcome.failedVerification ≠ InstallOutcome.scriptFailed ∧
     InstallOutcome.failedVerification ≠ InstallOutcome.privilegeDenied ∧
     InstallOutcome.scriptFailed ≠ InstallOutcome.privilegeDenied) := by
  refine ⟨?_, ?_, ?_, ?_, by decide, by decide, by decide⟩
  · intro s2 t2 heq
    unfold install
    simp [h1, heq]
  · intro s2 t2 heq
    unfold install
    simp [h1, heq]
  · intro s2 t2 heq
    unfold install
    simp [h1, heq]
  · unfold installExecRun
    cases hd : installExecDecision env.privilege m <;> simp
    · cases hr : (ex.run (ex.run s RunMode.direct env.verification).2 RunMode.direct
          env.script).1 <;> simp [hr]
    · cases hr : (ex.run (ex.run s RunMode.direct env.verification).2
          (RunMode.unsudo _) env.script).1 <;> simp [hr]

/-- Witness for C3 (amended): in the one-bit world `exFlip`, verification of
`envA` fails, the script succeeds and flips the bit, and the second
verification succeeds, so `install` reports `installed` with a trace of
verify, script, verify. -/
theorem install_after_failed_verify_witness :
    install exFlip false { privileged := false, sudoUser := "" } envA
      = (InstallOutcome.installed, true,
         [(RunMode.direct, envA.verification), (RunMode.direct, envA.script),
          (RunMode.direct, envA.verification)]) := by
  have h :=
    (install_after_failed_verify exFlip false { privileged := false, sudoUser := "" } envA
        rfl).1 true [(RunMode.direct, envA.script)] rfl
  simpa using h

/-! ### Resolver lemmas -/

theorem findEnvironmentIn_eq_find? (machineId : String) (es : List Environment) :
    findEnvironmentIn machineId es = es.find? (fun e => envId e == machineId) := by
  induction es with
  | nil => rfl
  | cons e es ih =>
    by_cases h : envId e == machineId
    · simp [findEnvironmentIn, List.find?, h]
    · simp only [Bool.not_eq_true] at h
      simp [findEnvironmentIn, List.find?, h, ih]

theorem find?_append {α : Type} (p : α → Bool) (l₁ l₂ : List α) :
    (l₁ ++ l₂).find? p
      = (match l₁.find? p with
         | some a => some a
         | none => l₂.find? p) := by
  induction l₁ with
  | nil => simp
  | cons a l₁ ih =>
    by_cases h : p a
    · simp [List.find?, h]
    · simp only [Bool.not_eq_true] at h
      simp [List.find?, h, ih]

theorem findPackageEnvironment_eq_find? (machineId : String) (fs : List PackageFile) :
    findPackageEnvironment machineId fs
      = ((fs.map (fun pf => pf.package.environments)).flatten).find?
          (fun e => envId e == machineId) := by
  induction fs with
  | nil => rfl
  | cons pf rest ih =>
    simp only [List.map_cons, List.flatten_cons, find?_append]
    rw [findPackageEnvironment, findEnvironmentIn_eq_find?, ih]
    cases pf.package.environments.find? (fun e => envId e == machineId) <;> rfl

/-- C5: environment resolution is deterministic first-match over both
dimensions.  It equals the first element of the source-ordered,
declaration-ordered concatenation of all environments whose
`architecture@platform` equals the machine id; it returns the not-found
outcome exactly when no environment of any source matches; a match found in a
list of sources is unchanged by appending further sources (later duplicates
are shadowed); and any returned environment carries the machine id. -/
theorem findPackageEnvironment_first_match (machineId : String) :
    (∀ fs : List PackageFile,
      findPackageEnvironment machineId fs
        = ((fs.map (fun pf => pf.package.environments)).flatten).find?
            (fun e => envId e == machineId)) ∧
    (∀ fs : List PackageFile,
      findPackageEnvironment machineId fs = none
        ↔ ∀ pf ∈ fs, ∀ e ∈ pf.package.environments, envId e ≠ machineId) ∧
    (∀ fs₁ fs₂ : List PackageFile, ∀ e : Environment,
      findPackageEnvironment machineId fs₁ = some e →
      findPackageEnvironment machineId (fs₁ ++ fs₂) = some e) ∧
    (∀ fs : List PackageFile, ∀ e : Environment,
      findPackageEnvironment machineId fs = some e → envId e = machineId) := by
  refine ⟨findPackageEnvironment_eq_find? machineId, ?_, ?_, ?_⟩
  · intro fs
    rw [findPackageEnvironment_eq_find? machineId fs, List.find?_eq_none]
    constructor
    · intro h pf hpf e he
      have hmem : e ∈ (fs.map (fun pf => pf.package.environments)).flatten := by
        rw [List.mem_flatten]
        exact ⟨pf.package.environments, List.mem_map_of_mem _ hpf, he⟩
      have := h e hmem
      simpa using this
    · intro h e hmem
      rw [List.mem_flatten] at hmem
      obtain ⟨l, hl, hel⟩ := hmem
      rw [List.mem_map] at hl
      obtain ⟨pf, hpf, rfl⟩ := hl
      simpa using h pf hpf e hel
  · intro fs₁ fs₂ e h
    rw [findPackageEnvironment_eq_find?] at h ⊢
    rw [List.map_append, List.flatten_append, find?_append, h]
  · intro fs e h
    rw [findPackageEnvironment_eq_find?] at h
    have := List.find?_some h
    simpa using this

/-- Witness for C5: with two sources both declaring an `amd64@darwin`
environment, resolution returns the one from the earlier source. -/
theorem findPackageEnvironment_first_match_witness :
    findPackageEnvironment "amd64@darwin"
        [{ package := { name := "vim", url := "https://a", description := "a",
                        environments := [envA] }, path := "p1" },
         { package := { name := "vim", url := "https://b", description := "b",
                        environments := [{ envA with script := "other" }] }, path := "p2" }]
      = some envA := by
  have h :=
    (findPackageEnvironment_first_match "amd64@darwin").2.2.1
      [{ package := { name := "vim", url := "https://a", description := "a",
                      environments := [envA] }, path := "p1" }]
      [{ package := { name := "vim", url := "https://b", description := "b",
                      environments := [{ envA with script := "other" }] }, path := "p2" }]
      envA (by decide)
  simpa using h

/-! ### Validator lemmas -/

theorem lintEnvironment_eq_none_iff (e : Environment) :
    lintEnvironment e = none ↔ EnvWellFormed e := by
  unfold lintEnvironment EnvWellFormed
  split_ifs with h1 h2 h3 h4 h5 <;>
    simp_all [List.all_eq_true, not_or]
  exact or_iff_not_imp_left.mpr h2

theorem lintEnvironments_eq_none_iff (es : List Environment) :
    lintEnvironments es = none ↔ ∀ e ∈ es, lintEnvironment e = none := by
  induction es with
  | nil => simp [lintEnvironments]
  | cons e es ih =>
    cases h : lintEnvironment e with
    | some msg => simp [lintEnvironments, h]
    | none => simp [lintEnvironments, h, ih]

theorem lintEnvironments_first_fail (es₁ es₂ : List Environment) (e : Environment) (msg : String)
    (hok : ∀ x ∈ es₁, lintEnvironment x = none) (hmsg : lintEnvironment e = some msg) :
    lintEnvironments (es₁ ++ e :: es₂) = some msg := by
  induction es₁ with
  | nil => simp [lintEnvironments, hmsg]
  | cons a as ih =>
    have ha : lintEnvironment a = none := hok a (by simp)
    have : lintEnvironments ((a :: as) ++ e :: es₂) = lintEnvironments (as ++ e :: es₂) := by
      simp [lintEnvironments, ha]
    rw [this]
    exact ih (fun x hx => hok x (by simp [hx]))

theorem lintPackage_eq_none_iff (pkg : Package) :
    lintPackage pkg = none ↔ PackageWellFormed pkg := by
  unfold lintPackage PackageWellFormed
  by_cases h1 : pkgNameOk pkg.name = true
  · by_cases h2 : urlOk pkg.url = true
    · by_cases h3 : pkg.description = ""
      · simp_all
      · by_cases h4 : pkg.environments = []
        · simp_all
        · have h4b : pkg.environments.isEmpty = false := by
            simpa [List.isEmpty_iff] using h4
          simp_all [lintEnvironments_eq_none_iff, lintEnvironment_eq_none_iff]
    · have h2b : urlOk pkg.url = false := by simpa using h2
      simp_all
  · have h1b : pkgNameOk pkg.name = false := by simpa using h1
    simp_all

/-- C6: `lintPackage` checks its rules in a fixed order -- name charset, url
scheme, non-empty description, non-empty environments, then per environment
in declaration order: architecture allow-list, platform allow-list,
dependency charset, non-empty verification, non-empty script -- and
short-circuits at the first violated rule, reporting exactly its message.
In particular a name containing a character outside `[0-9a-z-]` is reported
with the name rule whatever the remaining fields hold, and acceptance is
equivalent to all rules holding. -/
theorem lintPackage_fixed_order (pkg : Package) :
    ((∃ c ∈ pkg.name.data, pkgNameCharOk c = false) → lintPackage pkg = some nameErrMsg) ∧
    (pkgNameOk pkg.name = false → lintPackage pkg = some nameErrMsg) ∧
    (pkgNameOk pkg.name = true → urlOk pkg.url = false → lintPackage pkg = some urlErrMsg) ∧
    (pkgNameOk pkg.name = true → urlOk pkg.url = true → pkg.description = "" →
      lintPackage pkg = some descriptionErrMsg) ∧
    (pkgNameOk pkg.name = true → urlOk pkg.url = true → pkg.description ≠ "" →
      pkg.environments = [] → lintPackage pkg = some environmentsErrMsg) ∧
    (pkgNameOk pkg.name = true → urlOk pkg.url = true → pkg.description ≠ "" →
      ∀ es₁ e es₂ msg, pkg.environments = es₁ ++ e :: es₂ →
        (∀ x ∈ es₁, lintEnvironment x = none) → lintEnvironment e = some msg →
        lintPackage pkg = some msg) ∧
    (∀ e : Environment,
      (e.architecture ≠ "amd64" → lintEnvironment e = some architectureErrMsg) ∧
      (e.architecture = "amd64" → e.platform ≠ "darwin" → e.platform ≠ "linux/ubuntu" →
        lintEnvironment e = some platformErrMsg) ∧
      (e.architecture = "amd64" → (e.platform = "darwin" ∨ e.platform = "linux/ubuntu") →
        e.dependencies.all pkgNameOk = false → lintEnvironment e = some dependenciesErrMsg) ∧
      (e.architecture = "amd64" → (e.platform = "darwin" ∨ e.platform = "linux/ubuntu") →
        e.dependencies.all pkgNameOk = true → e.verification = "" →
        lintEnvironment e = some verificationErrMsg) ∧
      (e.architecture = "amd64" → (e.platform = "darwin" ∨ e.platform = "linux/ubuntu") →
        e.dependencies.all pkgNameOk = true → e.verification ≠ "" → e.script = "" →
        lintEnvironment e = some scriptErrMsg)) ∧
    (lintPackage pkg = none ↔ PackageWellFormed pkg) := by
  refine ⟨?_, ?_, ?_, ?_, ?_, ?_, ?_, lintPackage_eq_none_iff pkg⟩
  · intro ⟨c, hc, hbad⟩
    have hno : pkgNameOk pkg.name = false := by
      unfold pkgNameOk
      have : pkg.name.data.all pkgNameCharOk = false := by
        rw [List.all_eq_false]
        exact ⟨c, hc, by simp [hbad]⟩
      simp [this]
    simp [lintPackage, hno]
  · intro hno
    simp [lintPackage, hno]
  · intro h1 h2
    simp [lintPackage, h1, h2]
  · intro h1 h2 h3
    simp [lintPackage, h1, h2, h3]
  · intro h1 h2 h3 h4
    simp [lintPackage, h1, h2, h3, h4, List.isEmpty_iff]
  · intro h1 h2 h3 es₁ e es₂ msg henv hok hmsg
    have hne : pkg.environments.isEmpty = false := by
      rw [henv]
      simp [List.isEmpty_iff]
    simp only [lintPackage, h1, h2, Bool.not_true, if_false, hne]
    have h3b : (pkg.description == "") = false := by simpa using h3
    simp only [h3b, if_false, Bool.false_eq_true]
    rw [henv]
    exact lintEnvironments_first_fail es₁ es₂ e msg hok hmsg
  · intro e
    refine ⟨?_, ?_, ?_, ?_, ?_⟩
    · intro h
      have hb : (e.architecture != "amd64") = true := by simpa using h
      simp [lintEnvironment, hb]
    · intro h1 h2 h3
      have hb : (e.platform != "darwin" && e.platform != "linux/ubuntu") = true := by
        simp [h2, h3]
      simp [lintEnvironment, h1, hb]
    · intro h1 h2 h3
      have hb : (e.platform != "darwin" && e.platform != "linux/ubuntu") = false := by
        rcases h2 with h | h <;> simp [h]
      simp [lintEnvironment, h1, hb, h3]
    · intro h1 h2 h3 h4
      have hb : (e.platform != "darwin" && e.platform != "linux/ubuntu") = false := by
        rcases h2 with h | h <;> simp [h]
      simp [lintEnvironment, h1, hb, h3, h4]
    · intro h1 h2 h3 h4 h5
      have hb : (e.platform != "darwin" && e.platform != "linux/ubuntu") = false := by
        rcases h2 with h | h <;> simp [h]
      simp [lintEnvironment, h1, hb, h3, h4, h5]

/-- Witness for C6: a package whose name holds a space (outside the charset)
and whose every other field is also broken is reported with the name rule. -/
theorem lintPackage_fixed_order_witness :
    lintPackage { name := "Bad Name", url := "ftp://x", description := "",
                  environments := [] } = some nameErrMsg :=
  (lintPackage_fixed_order { name := "Bad Name", url := "ftp://x", description := "",
                             environments := [] }).1 ⟨' ', by decide, by decide⟩

/-! ### Validation boundary lemmas -/

theorem readPackageFile_ok_lint (world : String → ReadOutcome) (path : String)
    (pf : PackageFile) (h : readPackageFile world path = Except.ok pf) :
    lintPackage pf.package = none ∧ pf.path = path := by
  unfold readPackageFile at h
  cases hw : world path <;> rw [hw] at h <;> simp at h
  case parsed pkg =>
  cases hl : lintPackage pkg <;> rw [hl] at h <;> simp at h
  rw [← h]
  exact ⟨hl, rfl⟩

/-- C7: validation as a boundary invariant with per-record exclusion.  Every
package file that `findAllPackageFile` hands to the rest of the system passed
`lintPackage` (hence architecture and platform are in the allow-lists and
verification and script are non-empty); a source whose read, parse or lint
fails contributes nothing and only that record is dropped, the remaining
sources still being processed; a source that succeeds contributes exactly its
record in order. -/
theorem validation_boundary (world : String → ReadOutcome) (home pkgName : String) :
    (∀ repos : List String, ∀ pf ∈ findAllPackageFile world home pkgName repos,
      lintPackage pf.package = none ∧ PackageWellFormed pf.package) ∧
    (∀ url : String, ∀ repos : List String,
      (∃ msg, readPackageFile world (packageDefinitionPath home url pkgName)
          = Except.error msg) →
      findAllPackageFile world home pkgName (url :: repos)
        = findAllPackageFile world home pkgName repos) ∧
    (∀ url : String, ∀ repos : List String, ∀ pf : PackageFile,
      readPackageFile world (packageDefinitionPath home url pkgName) = Except.ok pf →
      findAllPackageFile world home pkgName (url :: repos)
        = pf :: findAllPackageFile world home pkgName repos) := by
  refine ⟨?_, ?_, ?_⟩
  · intro repos
    induction repos with
    | nil =>
      intro pf hpf
      simp [findAllPackageFile] at hpf
    | cons url rest ih =>
      intro pf hpf
      rw [findAllPackageFile] at hpf
      cases hr : readPackageFile world (packageDefinitionPath home url pkgName) with
      | error msg =>
        rw [hr] at hpf
        exact ih pf hpf
      | ok pf2 =>
        rw [hr] at hpf
        simp only [List.mem_cons] at hpf
        rcases hpf with rfl | hpf
        · have hlint := (readPackageFile_ok_lint world _ pf hr).1
          exact ⟨hlint, (lintPackage_eq_none_iff pf.package).mp hlint⟩
        · exact ih pf hpf
  · intro url repos ⟨msg, hmsg⟩
    rw [findAllPackageFile, hmsg]
  · intro url repos pf hok
    rw [findAllPackageFile, hok]

/-- Witness for C7: a world where every path fails `os.Stat` yields the empty
match set for a singleton source list, the same as for no sources. -/
theorem validation_boundary_witness :
    findAllPackageFile (fun _ => ReadOutcome.statError) "/home/u" "vim"
        ["https://a.example/x.git"]
      = findAllPackageFile (fun _ => ReadOutcome.statError) "/home/u" "vim" [] :=
  (validation_boundary (fun _ => ReadOutcome.statError) "/home/u" "vim").2.1
    "https://a.example/x.git" [] ⟨_, rfl⟩

/-- C8 counterexample: the claim says a present-but-empty distribution name
falls back to platform `linux` with no suffix.  For os-release content
consisting of the single line `NAME=""` the field is present and empty, yet
`machinePlatform` returns `linux/` (the prefix with an empty distro name
appended), which is not `linux`. -/
theorem machinePlatform_empty_name_cex :
    machinePlatform "linux" (some "NAME=\"\"") = PlatformResult.ok "linux/" ∧
    PlatformResult.ok "linux/" ≠ PlatformResult.ok "linux" :=
  ⟨by decide, by decide⟩

/-- C8 (amended): a non-Linux OS reports its own short name; on Linux an
unreadable `/etc/os-release` is fatal; when some line matches `NAME="..."`
(and is long enough for the Go slice) the platform is `linux/` followed by
the lower-cased, trimmed field body -- so a present-but-empty field yields
`linux/`, not `linux`; the bare `linux` fallback happens exactly when no line
matches; and the machine environment id is `architecture@platform`. -/
theorem machinePlatform_spec :
    (∀ goos : String, ∀ r : Option String, goos ≠ "linux" →
      machinePlatform goos r = PlatformResult.ok goos) ∧
    (machinePlatform "linux" none
      = PlatformResult.fatal "failed to read /etc/os-release inspite that your machine is linux") ∧
    (∀ content line : String, findNameLine (splitLines content) = some line →
      7 ≤ line.data.length →
      machinePlatform "linux" (some content)
        = PlatformResult.ok ("linux/" ++ trimSpace (strToLower (nameLineBody line)))) ∧
    (∀ content : String, findNameLine (splitLines content) = none →
      machinePlatform "linux" (some content) = PlatformResult.ok "linux") ∧
    (∀ goarch goos : String, ∀ r : Option String, ∀ p : String,
      machinePlatform goos r = PlatformResult.ok p →
      machineEnvId goarch goos r = PlatformResult.ok (goarch ++ "@" ++ p)) := by
  refine ⟨?_, rfl, ?_, ?_, ?_⟩
  · intro goos r h
    have hb : (goos != "linux") = true := by simpa using h
    simp [machinePlatform, hb]
  · intro content line hf hlen
    have hnot : ¬ line.data.length < 7 := by omega
    simp [machinePlatform, hf, hnot]
    exact hlen
  · intro content hf
    simp [machinePlatform, hf]
  · intro goarch goos r p h
    simp [machineEnvId, h]

/-- Witness for C8 (amended): a two-line ubuntu os-release yields
`linux/ubuntu`. -/
theorem machinePlatform_spec_witness :
    machinePlatform "linux" (some "ID=x\nNAME=\"Ubuntu\"") = PlatformResult.ok "linux/ubuntu" := by
  have h := machinePlatform_spec.2.2.1 "ID=x\nNAME=\"Ubuntu\"" "NAME=\"Ubuntu\""
    (by decide) (by decide)
  exact h.trans (by decide)

/-- C9: the claim says each configured repository url is cloned or pulled in
the directory derived from that same url.  The `update` loop instead computes
`path := repoUrl2repoPath(packageRepositories()[0])`, the directory of the
FIRST url, for every iteration (the loop variable `url` is only passed to
`gitClone`).  With two repositories, the second is cloned into the first
url's directory, not into its own normalized directory. -/
theorem update_clone_path_bug :
    update "/home/u" (fun _ => false)
        ["https://a.example/x.git", "https://b.example/y.git"]
      = [UpdateAction.clone "/home/u/.mopm/a.example/x" "https://a.example/x.git",
         UpdateAction.clone "/home/u/.mopm/a.example/x" "https://b.example/y.git"] ∧
    repoUrl2repoPath "/home/u" "https://b.example/y.git" = "/home/u/.mopm/b.example/y" ∧
    ("/home/u/.mopm/a.example/x" : String) ≠ "/home/u/.mopm/b.example/y" :=
  ⟨by decide, by decide, by decide⟩

/-- C10: on a root process with no `$SUDO_USER`, resolving the home directory
exits the process with code 1 and the fixed message; consequently
`packageRepositories` and the package-file aggregation behind search, update,
verify and install all abort with that same exit before consulting the
repo-list file or any package definition file (the result is independent of
both oracles). -/
theorem homeDir_root_without_sudo_exits (m : Machine) (currentUser : Except String String)
    (lookup : String → Except String String)
    (hp : m.privileged = true) (hs : m.sudoUser = "") :
    homeDir m currentUser lookup = ProcResult.exit1 rootWithoutSudoErrMsg ∧
    (∀ repoFile : String → Option String,
      packageRepositories m currentUser lookup repoFile
        = ProcResult.exit1 rootWithoutSudoErrMsg) ∧
    (∀ repoFile : String → Option String, ∀ world : String → ReadOutcome, ∀ pkgName : String,
      findAllPackageFileM m currentUser lookup repoFile world pkgName
        = ProcResult.exit1 rootWithoutSudoErrMsg) := by
  have h1 : homeDir m currentUser lookup = ProcResult.exit1 rootWithoutSudoErrMsg := by
    simp [homeDir, hp, hs]
  refine ⟨h1, ?_, ?_⟩
  · intro repoFile
    simp [packageRepositories, h1]
  · intro repoFile world pkgName
    simp [findAllPackageFileM, h1]

/-- Witness for C10 at a concrete machine, user database and oracles. -/
theorem homeDir_root_without_sudo_exits_witness :
    findAllPackageFileM { privileged := true, sudoUser := "" } (Except.ok "/home/u")
        (fun _ => Except.ok "/home/u") (fun _ => none) (fun _ => ReadOutcome.statError) "vim"
      = ProcResult.exit1 rootWithoutSudoErrMsg :=
  (homeDir_root_without_sudo_exits { privileged := true, sudoUser := "" }
      (Except.ok "/home/u") (fun _ => Except.ok "/home/u") rfl rfl).2.2
    (fun _ => none) (fun _ => ReadOutcome.statError) "vim"

end Mopm
